import Mathlib

/-!
Verification development for the DeployR deployment runtime.

The development shallowly embeds the parts of the C++ sources needed to
settle the claims: the host-compatibility (topology subset) predicate, the
bipartite matcher contract, the variable-sized MPSC channel operations, the
coordinator's deploy/dispatch loop, function registration, root-instance
lookup, and the deployment serialization round trip.
-/

namespace DeployR

/-! ## Topology data model

A device as read by the compatibility checks: its type tag, the list of its
memory-space sizes (bytes), and the number of its compute resources.  The
C++ code reads exactly these fields of the JSON topology
(`"Type"`, `"Memory Spaces"`/`"Size"`, `"Compute Resources"`). -/

structure Device where
  type : String
  memorySpaces : List Nat
  computeResources : Nat
deriving DecidableEq, Repr

/-- Topology: the collection of devices of one host, in declaration order. -/
abbrev Topology := List Device

/-- Requested device of a host type, as in `Request::HostType` in the draft
used by the greedy `Host::checkCompatibility` (src/unnamed/part_010): a type
tag, a minimum device memory in GB, and a minimum compute-resource count. -/
structure ReqDevice where
  type : String
  minMemoryGB : Nat
  minComputeResources : Nat
deriving DecidableEq, Repr

/-- Condition under which a host device satisfies a requested device in
`Host::checkCompatibility` (src/unnamed/part_010, lines 262-297): same type
tag, summed memory-space bytes divided by 1024^3 at least the requested GB,
and at least as many compute resources. -/
def hostDeviceSatisfies (hd : Device) (rd : ReqDevice) : Bool :=
  hd.type == rd.type
    && decide (rd.minComputeResources ≤ hd.computeResources)
    && decide (rd.minMemoryGB ≤ hd.memorySpaces.sum / (1024 * 1024 * 1024))

/-- Scan of the host-device list performed by the inner loop of
`Host::checkCompatibility`: the first device satisfying the requested device
is consumed (erased) from the list; `none` if no device satisfies it. -/
def consumeHostDevice (rd : ReqDevice) : List Device → Option (List Device)
  | [] => none
  | hd :: rest =>
    if hostDeviceSatisfies hd rd then some rest
    else
      match consumeHostDevice rd rest with
      | some rest' => some (hd :: rest')
      | none => none

/-- Embedding of `Host::checkCompatibility` (src/unnamed/part_010, lines
245-306): requested devices are processed in order; each must be satisfied by
a distinct host device, host devices being scanned in declaration order and
erased once matched. -/
def checkCompatibility (hostDevices : List Device) : List ReqDevice → Bool
  | [] => true
  | rd :: rds =>
    match consumeHostDevice rd hostDevices with
    | some rest => checkCompatibility rest rds
    | none => false

/-! ## The spec's subset predicate

`isSubset` is defined here following the specification's words (spec.md §3):
"`isSubset(host, required)` holds iff for every device `d_r` in `required`
there exists a distinct device `d_h` in `host` with the same type tag such
that total memory-space bytes of `d_h` ≥ that of `d_r` and the
compute-resource count of `d_h` ≥ that of `d_r`.  Devices in `host` are
matched greedily in declaration order and consumed (one host device may
satisfy at most one required device)."  It also stands in for
`HiCR::Topology::isSubset`, which is external to this repository. -/

/-- Modelled from the spec: the per-device comparison of §3 — same type tag,
total memory-space bytes at least those of the required device, at least as
many compute resources. -/
def specDeviceLE (dr dh : Device) : Bool :=
  dh.type == dr.type
    && decide (dr.memorySpaces.sum ≤ dh.memorySpaces.sum)
    && decide (dr.computeResources ≤ dh.computeResources)

/-- Modelled from the spec: greedy consumption of the first host device (in
declaration order) that satisfies the required device `dr`. -/
def specConsume (dr : Device) : List Device → Option (List Device)
  | [] => none
  | dh :: rest =>
    if specDeviceLE dr dh then some rest
    else
      match specConsume dr rest with
      | some rest' => some (dh :: rest')
      | none => none

/-- Modelled from the spec: `isSubset(host, required)` of §3, with host
devices matched greedily in declaration order and consumed.  Stands in for
the external `HiCR::Topology::isSubset`. -/
def isSubset (host : List Device) : List Device → Bool
  | [] => true
  | dr :: drs =>
    match specConsume dr host with
    | some rest => isSubset rest drs
    | none => false

/-- View of a requested device as the device the spec compares against: its
memory requirement expressed in bytes (GB times 1024^3). -/
def reqDeviceAsDevice (rd : ReqDevice) : Device :=
  ⟨rd.type, [rd.minMemoryGB * (1024 * 1024 * 1024)], rd.minComputeResources⟩

/-- The per-device check of the code agrees with the per-device comparison of
the spec, once the requested GB are expressed in bytes; the two sides differ
by the floor division performed by the code. -/
theorem hostDeviceSatisfies_eq_specDeviceLE (hd : Device) (rd : ReqDevice) :
    hostDeviceSatisfies hd rd = specDeviceLE (reqDeviceAsDevice rd) hd := by
  have hpos : 0 < 1024 * 1024 * 1024 := by norm_num
  rw [Bool.eq_iff_iff]
  unfold hostDeviceSatisfies specDeviceLE reqDeviceAsDevice
  simp only [Bool.and_eq_true, decide_eq_true_eq, List.sum_cons, List.sum_nil, add_zero]
  constructor
  · rintro ⟨⟨ht, hcr⟩, hmem⟩
    exact ⟨⟨ht, (Nat.le_div_iff_mul_le hpos).mp hmem⟩, hcr⟩
  · rintro ⟨⟨ht, hmem⟩, hcr⟩
    exact ⟨⟨ht, hcr⟩, (Nat.le_div_iff_mul_le hpos).mpr hmem⟩

/-- The code's host-device scan agrees with the spec's greedy consumption. -/
theorem consumeHostDevice_eq_specConsume (rd : ReqDevice) (hds : List Device) :
    consumeHostDevice rd hds = specConsume (reqDeviceAsDevice rd) hds := by
  induction hds with
  | nil => rfl
  | cons hd rest ih =>
    rw [consumeHostDevice, specConsume, hostDeviceSatisfies_eq_specDeviceLE, ih]

/-- The code's compatibility check computes exactly the spec's greedy subset
predicate on the requested devices viewed in bytes. -/
theorem checkCompatibility_eq_isSubset (host : List Device) (required : List ReqDevice) :
    checkCompatibility host required = isSubset host (required.map reqDeviceAsDevice) := by
  induction required generalizing host with
  | nil => rfl
  | cons rd rds ih =>
    rw [List.map_cons, checkCompatibility, isSubset, consumeHostDevice_eq_specConsume]
    cases specConsume (reqDeviceAsDevice rd) host with
    | none => rfl
    | some rest => exact ih rest

/-- C5: `Host::checkCompatibility(host, required)` holds iff for every device
`d_r` of the requirement there is a distinct host device `d_h` of the same
type tag whose total memory-space bytes and compute-resource count are at
least those of `d_r`, host devices being matched greedily in declaration
order and consumed — i.e. iff the spec's greedy subset predicate holds of the
host's devices and the requested devices with their memory viewed in bytes. -/
theorem C5_host_compatibility_iff_greedy_subset (host : List Device) (required : List ReqDevice) :
    checkCompatibility host required = true ↔
      isSubset host (required.map reqDeviceAsDevice) = true := by
  rw [checkCompatibility_eq_isSubset]

/-! ## Matcher

`DeployR::doBipartiteMatching` (src/unnamed/part_014, lines 246-275) builds a
bipartite graph with an edge `(i, j)` iff
`HiCR::Topology::isSubset(given[j], requested[i])`, asks the vendored
Hopcroft–Karp library (`theAlgorithms::graph::HKGraph`, which is not under
src/) for a maximum matching, and returns the left-side pairing when its size
equals `requested.size()`, the empty vector otherwise. -/

/-- Edge predicate of the bipartite graph built by `doBipartiteMatching`:
requested index `i` is connected to given index `j` iff the given topology
contains the requested one. -/
def matchEdge (requested given : List Topology) (i j : Nat) : Bool :=
  isSubset (given.getD j []) (requested.getD i [])

/-- Modelled from the spec: the right-candidate scan of the matcher.  The
Hopcroft–Karp library is missing from src/; the §4.4 contract is modelled by
a backtracking search whose candidate rights are tried lowest index first
(§4.4: "left-to-right, lowest right index first").  `k j` continues the
search after pairing the current left vertex with right vertex `j`. -/
def goCands (adj : Nat → Nat → Bool) (i : Nat) (used : List Nat)
    (k : Nat → Option (List Nat)) : List Nat → Option (List Nat)
  | [] => none
  | j :: js =>
    if adj i j = true ∧ j ∉ used then
      match k j with
      | some p => some (j :: p)
      | none => goCands adj i used k js
    else goCands adj i used k js

/-- Modelled from the spec: search for an assignment of the left vertices
`ls` to distinct right vertices below `G` not in `used`, following the §4.4
contract of the missing Hopcroft–Karp library: it succeeds exactly when a
matching covering all left vertices exists. -/
def searchMatching (adj : Nat → Nat → Bool) (G : Nat) :
    List Nat → List Nat → Option (List Nat)
  | [], _ => some []
  | i :: ls, used =>
    goCands adj i used (fun j => searchMatching adj G ls (j :: used)) (List.range G)

/-- Modelled from the spec: `DeployR::doBipartiteMatching` as an `Option` —
`some` of the left-side pairing when a matching covering every requested
topology exists, `none` otherwise (the C++ function reports the latter by an
empty vector, see `doBipartiteMatching`). -/
def doBipartiteMatchingOpt (requested given : List Topology) : Option (List Nat) :=
  searchMatching (matchEdge requested given) given.length
    (List.range requested.length) []

/-- `DeployR::doBipartiteMatching` (src/unnamed/part_014): the left-side
pairing vector on success, the empty vector otherwise. -/
def doBipartiteMatching (requested given : List Topology) : List Nat :=
  (doBipartiteMatchingOpt requested given).getD []

/-- A successful candidate scan yields a candidate `j` that is adjacent,
unused, and accepted by the continuation. -/
theorem goCands_eq_some {adj : Nat → Nat → Bool} {i : Nat} {used : List Nat}
    {k : Nat → Option (List Nat)} {cs : List Nat} {p : List Nat}
    (h : goCands adj i used k cs = some p) :
    ∃ j ∈ cs, adj i j = true ∧ j ∉ used ∧ ∃ q, k j = some q ∧ p = j :: q := by
  induction cs with
  | nil => rw [goCands] at h; exact Option.noConfusion h
  | cons c cs ih =>
    rw [goCands] at h
    split_ifs at h with hc
    · cases hk : k c with
      | none =>
        rw [hk] at h
        obtain ⟨j, hj, rest⟩ := ih h
        exact ⟨j, List.mem_cons_of_mem _ hj, rest⟩
      | some q =>
        rw [hk] at h
        exact ⟨c, List.mem_cons_self _ _, hc.1, hc.2, q, hk, (Option.some.inj h).symm⟩
    · obtain ⟨j, hj, rest⟩ := ih h
      exact ⟨j, List.mem_cons_of_mem _ hj, rest⟩

/-- A failed candidate scan means the continuation fails at every adjacent
unused candidate. -/
theorem goCands_eq_none {adj : Nat → Nat → Bool} {i : Nat} {used : List Nat}
    {k : Nat → Option (List Nat)} {cs : List Nat}
    (h : goCands adj i used k cs = none) :
    ∀ j ∈ cs, adj i j = true → j ∉ used → k j = none := by
  induction cs with
  | nil => intro j hj _ _; exact absurd hj (List.not_mem_nil j)
  | cons c cs ih =>
    intro j hj hadj hju
    rw [goCands] at h
    split_ifs at h with hc
    · cases hk : k c with
      | some q => rw [hk] at h; exact Option.noConfusion h
      | none =>
        rw [hk] at h
        rcases List.mem_cons.mp hj with rfl | hj'
        · exact hk
        · exact ih h j hj' hadj hju
    · rcases List.mem_cons.mp hj with rfl | hj'
      · exact absurd ⟨hadj, hju⟩ hc
      · exact ih h j hj' hadj hju

/-- Soundness of the search: a returned pairing pairs the left vertices, in
order, with adjacent rights below `G`, without repetition, avoiding `used`. -/
theorem searchMatching_sound {adj : Nat → Nat → Bool} {G : Nat}
    {ls used p : List Nat} (h : searchMatching adj G ls used = some p) :
    List.Forall₂ (fun i j => adj i j = true ∧ j < G) ls p ∧
      p.Nodup ∧ ∀ j ∈ p, j ∉ used := by
  induction ls generalizing used p with
  | nil =>
    rw [searchMatching] at h
    obtain rfl : ([] : List Nat) = p := Option.some.inj h
    exact ⟨List.Forall₂.nil, List.nodup_nil, by simp⟩
  | cons i ls ih =>
    rw [searchMatching] at h
    obtain ⟨j, hjmem, hadj, hjused, q, hk, rfl⟩ := goCands_eq_some h
    obtain ⟨hf, hnd, hout⟩ := ih hk
    refine ⟨List.Forall₂.cons ⟨hadj, List.mem_range.mp hjmem⟩ hf, ?_, ?_⟩
    · refine List.nodup_cons.mpr ⟨fun hjq => ?_, hnd⟩
      exact (hout j hjq) (List.mem_cons_self _ _)
    · intro x hx
      rcases List.mem_cons.mp hx with rfl | hxq
      · exact hjused
      · exact fun hxu => (hout x hxq) (List.mem_cons_of_mem _ hxu)

/-- Completeness of the search: it fails only when no assignment of the left
vertices to distinct, adjacent, unused rights below `G` exists. -/
theorem searchMatching_complete {adj : Nat → Nat → Bool} {G : Nat}
    {ls used : List Nat} (h : searchMatching adj G ls used = none)
    (f : Nat → Nat)
    (hf : ∀ i ∈ ls, adj i (f i) = true ∧ f i < G ∧ f i ∉ used)
    (hinj : ls.Pairwise fun a b => f a ≠ f b) : False := by
  induction ls generalizing used with
  | nil => rw [searchMatching] at h; exact Option.noConfusion h
  | cons i ls ih =>
    rw [searchMatching] at h
    obtain ⟨hadj, hlt, hused⟩ := hf i (List.mem_cons_self _ _)
    have hnone := goCands_eq_none h (f i) (List.mem_range.mpr hlt) hadj hused
    refine ih hnone ?_ (List.Pairwise.of_cons hinj)
    intro i' hi'
    obtain ⟨ha, hl, hu⟩ := hf i' (List.mem_cons_of_mem _ hi')
    refine ⟨ha, hl, fun hmem => ?_⟩
    rcases List.mem_cons.mp hmem with heq | hmem'
    · exact (List.rel_of_pairwise_cons hinj hi') heq.symm
    · exact hu hmem'

/-- An assignment of every requested topology to a compatible given topology,
no two requested indices sharing a given index: a matching of the bipartite
compatibility graph covering all requested instances. -/
def ValidAssignment (requested given : List Topology) (f : Nat → Nat) : Prop :=
  (∀ i, i < requested.length → f i < given.length ∧
      isSubset (given.getD (f i) []) (requested.getD i []) = true)
  ∧ ∀ i, i < requested.length → ∀ j, j < requested.length → i ≠ j → f i ≠ f j

/-- The matcher succeeds exactly when a covering matching exists. -/
theorem validAssignment_iff_isSome (requested given : List Topology) :
    (∃ f, ValidAssignment requested given f) ↔
      (doBipartiteMatchingOpt requested given).isSome := by
  constructor
  · rintro ⟨f, hfa, hfi⟩
    cases hOpt : doBipartiteMatchingOpt requested given with
    | some p => rfl
    | none =>
      exfalso
      refine searchMatching_complete hOpt f ?_ ?_
      · intro i hi
        rw [List.mem_range] at hi
        obtain ⟨hlt, hsub⟩ := hfa i hi
        refine ⟨?_, hlt, by simp⟩
        rw [matchEdge]; exact hsub
      · refine (List.pairwise_lt_range _).imp_of_mem ?_
        intro a b ha hb hab
        exact hfi a (List.mem_range.mp ha) b (List.mem_range.mp hb) (Nat.ne_of_lt hab)
  · intro hs
    obtain ⟨p, hp⟩ := Option.isSome_iff_exists.mp hs
    obtain ⟨hf2, hnd, -⟩ := searchMatching_sound hp
    have hlen : p.length = requested.length := by
      have h1 := hf2.length_eq
      rw [List.length_range] at h1
      omega
    refine ⟨fun i => p.getD i 0, fun i hi => ?_, fun i hi j hj hne hcon => ?_⟩
    · dsimp only
      have hip : i < p.length := by omega
      have h2 := (List.forall₂_iff_get.mp hf2).2 i (by simpa using hi) hip
      rw [List.get_range] at h2
      simp only [matchEdge, List.get_eq_getElem] at h2
      rw [List.getD_eq_getElem p 0 hip]
      exact ⟨h2.2, h2.1⟩
    · dsimp only at hcon
      have hip : i < p.length := by omega
      have hjp : j < p.length := by omega
      rw [List.getD_eq_getElem p 0 hip, List.getD_eq_getElem p 0 hjp] at hcon
      exact hne (hnd.getElem_inj_iff.mp hcon)

/-- C1: if the matching operation reports success, every requested instance
is assigned a host satisfying the subset predicate for its requirement, and
the assignment is injective (the returned pairing has no repeated host). -/
theorem C1_matcher_soundness (requested given : List Topology) (p : List Nat)
    (h : doBipartiteMatchingOpt requested given = some p) :
    p.length = requested.length ∧
    (∀ i, i < requested.length → p.getD i 0 < given.length ∧
        isSubset (given.getD (p.getD i 0) []) (requested.getD i []) = true) ∧
    p.Nodup := by
  obtain ⟨hf2, hnd, -⟩ := searchMatching_sound h
  have hlen : p.length = requested.length := by
    have h1 := hf2.length_eq
    rw [List.length_range] at h1
    omega
  refine ⟨hlen, fun i hi => ?_, hnd⟩
  have hip : i < p.length := by omega
  have h2 := (List.forall₂_iff_get.mp hf2).2 i (by simpa using hi) hip
  rw [List.get_range] at h2
  simp only [matchEdge, List.get_eq_getElem] at h2
  rw [List.getD_eq_getElem p 0 hip]
  exact ⟨h2.2, h2.1⟩

/-- Witness for C1 at a concrete matching: one requested device satisfied by
the one given host. -/
theorem C1_matcher_soundness_witness :
    ([0] : List Nat).length = [[Device.mk "A" [] 0]].length ∧
    (∀ i, i < [[Device.mk "A" [] 0]].length →
        ([0] : List Nat).getD i 0 < [[Device.mk "A" [] 0]].length ∧
        isSubset ([[Device.mk "A" [] 0]].getD (([0] : List Nat).getD i 0) [])
          ([[Device.mk "A" [] 0]].getD i []) = true) ∧
    ([0] : List Nat).Nodup :=
  C1_matcher_soundness [[Device.mk "A" [] 0]] [[Device.mk "A" [] 0]] [0] (by decide)

/-- C4: the matcher returns a pairing exactly when a matching covering all
requested instances exists in the bipartite compatibility graph, and returns
the empty pairing vector otherwise. -/
theorem C4_matcher_complete (requested given : List Topology) :
    ((∃ f, ValidAssignment requested given f) ↔
        (doBipartiteMatchingOpt requested given).isSome)
    ∧ ((¬ ∃ f, ValidAssignment requested given f) →
        doBipartiteMatching requested given = []) := by
  refine ⟨validAssignment_iff_isSome requested given, fun hne => ?_⟩
  have h0 : doBipartiteMatchingOpt requested given = none := by
    cases hOpt : doBipartiteMatchingOpt requested given with
    | none => rfl
    | some p =>
      exact absurd ((validAssignment_iff_isSome requested given).mpr
        (by rw [hOpt]; rfl)) hne
  rw [doBipartiteMatching, h0]
  rfl

/-- Witness for C4: the one-requested/one-given instance is matchable, and
the matcher indeed reports success there. -/
theorem C4_matcher_complete_witness :
    (doBipartiteMatchingOpt [[Device.mk "A" [] 0]] [[Device.mk "A" [] 0]]).isSome = true := by
  refine (C4_matcher_complete [[Device.mk "A" [] 0]] [[Device.mk "A" [] 0]]).1.mp
    ⟨fun _ => 0, fun i hi => ?_, fun i hi j hj hne => ?_⟩
  · obtain rfl : i = 0 := by simpa using hi
    exact ⟨by decide, by decide⟩
  · simp only [List.length_cons, List.length_nil] at hi hj
    omega

/-! ## Channel: variable-sized MPSC operations

`Channel::push` and `Channel::pop` (src/include/deployr/channel.hpp, also
src/unnamed/part_003) guard on the HiCR producer interface's `isFull()` and
the HiCR consumer interface's `isEmpty()` and then delegate to those
interfaces, which are external to this repository; the buffer state they act
on is modelled from the spec's channel runtime state (§3, §4.3). -/

/-- Modelled from the spec: producer-visible channel state (§3) — the buffer
capacity in tokens, the payload buffer size in bytes, and the sizes of the
pending tokens in publication order. -/
structure ChannelState where
  bufferCapacity : Nat
  bufferSize : Nat
  tokens : List Nat
deriving DecidableEq, Repr

/-- Modelled from the spec: `isFull()` of the external HiCR producer
interface — the design notes (§9) record that it checks the token count only
("`push` uses `isFull()` as the only pre-check; it does not verify
payload-bytes availability"): full iff the pending token count has reached
the buffer capacity. -/
def ChannelState.isFull (st : ChannelState) : Bool :=
  st.tokens.length == st.bufferCapacity

/-- Bytes of the payload ring occupied by the pending tokens. -/
def ChannelState.usedPayloadBytes (st : ChannelState) : Nat :=
  st.tokens.sum

/-- Embedding of `Channel::push` (channel.hpp, lines 97-115): on a producer,
return `false` (WouldBlock) iff `isFull()`; otherwise publish the token of
`size` bytes and return `true`.  No payload-space check is performed. -/
def Channel.push (st : ChannelState) (size : Nat) : Bool × ChannelState :=
  if st.isFull then (false, st)
  else (true, { st with tokens := st.tokens ++ [size] })

/-- C2 (failing input): with capacity 2, payload size 4 bytes and one pending
3-byte token, pushing a 2-byte message finds only 1 free payload byte, yet
`push` publishes the token and reports success — the pending payload then
exceeds the payload ring — instead of returning `WouldBlock` as claimed. -/
theorem C2_push_ignores_payload_bytes :
    (Channel.push ⟨2, 4, [3]⟩ 2).1 = true ∧
      ((⟨2, 4, [3]⟩ : ChannelState).bufferSize - (⟨2, 4, [3]⟩ : ChannelState).usedPayloadBytes
        < 2) ∧
      ((Channel.push ⟨2, 4, [3]⟩ 2).2).usedPayloadBytes >
        (⟨2, 4, [3]⟩ : ChannelState).bufferSize := by
  decide

/-- Modelled from the spec: consumer-visible channel state (§3) — the pending
token sizes plus the consumer-advanced tail counters of the sizes ring
(tokens popped) and of the payload ring (bytes popped). -/
structure ConsumerState where
  tokens : List Nat
  sizesTailCounter : Nat
  payloadTailCounter : Nat
deriving DecidableEq, Repr

/-- Modelled from the spec: `isEmpty()` of the external HiCR consumer
interface — no pending token. -/
def ConsumerState.isEmpty (st : ConsumerState) : Bool :=
  st.tokens.isEmpty

/-- Embedding of `Channel::pop` (channel.hpp, lines 137-149): on a consumer,
fail (Empty) iff `isEmpty()`; otherwise consume one token, advancing the
sizes-ring tail by one token and the payload-ring tail by the token's
length. -/
def Channel.pop (st : ConsumerState) : Bool × ConsumerState :=
  if st.isEmpty then (false, st)
  else (true, ⟨st.tokens.tail, st.sizesTailCounter + 1,
               st.payloadTailCounter + st.tokens.headD 0⟩)

/-- C8: `pop` fails (returning Empty and leaving the state unchanged) iff no
token is pending; when a token is pending it succeeds and advances the
sizes-ring tail counter by one token and the payload-ring tail counter by
that token's length. -/
theorem C8_pop_empty_iff_and_advances (st : ConsumerState) :
    (Channel.pop st = (false, st) ↔ st.tokens = []) ∧
    (∀ l ls, st.tokens = l :: ls →
      Channel.pop st = (true, ⟨ls, st.sizesTailCounter + 1, st.payloadTailCounter + l⟩)) := by
  obtain ⟨tks, s1, s2⟩ := st
  cases tks with
  | nil =>
    exact ⟨by simp [Channel.pop, ConsumerState.isEmpty], fun l ls h => by simp at h⟩
  | cons h t =>
    refine ⟨by simp [Channel.pop, ConsumerState.isEmpty], ?_⟩
    rintro l ls hll
    obtain ⟨rfl, rfl⟩ : h = l ∧ t = ls := by simpa using hll
    simp [Channel.pop, ConsumerState.isEmpty]

/-- Witness for C8: popping an empty channel fails; popping a channel with a
pending 5-byte token advances the sizes tail from 2 to 3 and the payload
tail from 7 to 12. -/
theorem C8_pop_witness :
    (Channel.pop ⟨[], 0, 0⟩ = (false, ⟨[], 0, 0⟩) ↔ ([] : List Nat) = []) ∧
    Channel.pop ⟨[5], 2, 7⟩ = (true, ⟨[], 3, 12⟩) :=
  ⟨(C8_pop_empty_iff_and_advances ⟨[], 0, 0⟩).1,
   (C8_pop_empty_iff_and_advances ⟨[5], 2, 7⟩).2 5 [] rfl⟩

/-! ## Function registration -/

/-- Embedding of `DeployR::registerFunction` (deployr.hpp, lines 173-187, and
src/unnamed/part_014, lines 132-142): if the name is already in the table the
registration fails ("The function '%s' was already registered.") and the
table is unchanged; otherwise the closure is stored under the name.  Closures
are opaque values of `α`; the table is the `name → closure` map. -/
def registerFunction {α : Type} (table : List (String × α)) (name : String) (fc : α) :
    Except String (List (String × α)) :=
  if (table.lookup name).isSome then .error "The function was already registered."
  else .ok ((name, fc) :: table)

/-- C7: registering a closure under a fresh name succeeds; a second
registration under the same name fails with the duplicate-name error; and
after the failed second registration the table still maps the name to the
first closure, so invoking the name runs the first closure. -/
theorem C7_register_duplicate_keeps_first {α : Type} (table : List (String × α))
    (name : String) (f1 f2 : α) (h : table.lookup name = none) :
    registerFunction table name f1 = .ok ((name, f1) :: table) ∧
    registerFunction ((name, f1) :: table) name f2 =
      .error "The function was already registered." ∧
    ((name, f1) :: table).lookup name = some f1 := by
  refine ⟨?_, ?_, ?_⟩ <;> simp [registerFunction, h, List.lookup]

/-- Witness for C7 at a concrete table: name "F", closures 0 and 1. -/
theorem C7_register_duplicate_keeps_first_witness :
    registerFunction ([] : List (String × Nat)) "F" 0 = .ok [("F", 0)] ∧
    registerFunction [("F", 0)] "F" 1 = .error "The function was already registered." ∧
    ([("F", (0 : Nat))]).lookup "F" = some 0 :=
  C7_register_duplicate_keeps_first [] "F" 0 1 rfl

/-! ## Coordinator deploy and dispatch

`DeployR::deploy` (src/unnamed/part_014, lines 63-121; the same logic in
src/unnamed/part_016, lines 57-114), coordinator path: collect the runner ids
into a set and fail if the set is smaller than the runner list; then walk the
runners in order, failing on an instance id absent from the instance manager,
remembering the runner assigned to the coordinator's own instance, and
posting a dispatch RPC for every other runner; finally run the
coordinator-local runner (if any) through `runInitialFunction`
(src/unnamed/part_014, lines 299-310), which fails when its function name is
not registered. -/

/-- A runner of a deployment (runner.hpp): user-assigned id, entry-function
name, and the id of the HiCR instance that must host it. -/
structure Runner where
  id : Nat
  function : String
  instanceId : Nat
deriving DecidableEq, Repr

/-- Observable deployment action: a dispatch RPC posted to a remote instance,
or the coordinator-local execution of an entry function. -/
inductive DeployEvent where
  | rpc (instanceId : Nat) (functionName : String) (runnerId : Nat)
  | runLocal (functionName : String) (runnerId : Nat)
deriving DecidableEq, Repr

/-- Failures surfaced by `deploy` (its `HICR_THROW_LOGIC` / fatal sites). -/
inductive DeployError where
  | repeatedRunnerId
  | unknownInstance (id : Nat)
  | unknownFunction (name : String)
deriving DecidableEq, Repr

/-- The dispatch loop of `deploy`: walk the runners in order; fail if a
runner's instance id is not among the known instances; remember (overwriting)
the runner whose instance id is the coordinator's; post a dispatch RPC for
every other runner. -/
def dispatchLoop (instances : List Nat) (coordId : Nat) :
    List Runner → Option (String × Nat) → List DeployEvent →
      Option DeployError × Option (String × Nat) × List DeployEvent
  | [], loc, evs => (none, loc, evs)
  | r :: rs, loc, evs =>
    if r.instanceId ∈ instances then
      if r.instanceId = coordId then
        dispatchLoop instances coordId rs (some (r.function, r.id)) evs
      else
        dispatchLoop instances coordId rs loc
          (evs ++ [DeployEvent.rpc r.instanceId r.function r.id])
    else (some (DeployError.unknownInstance r.instanceId), loc, evs)

/-- Embedding of the coordinator path of `DeployR::deploy`
(src/unnamed/part_014, lines 63-121): the runner-id uniqueness check, the
dispatch loop, and the closing `runInitialFunction` for the coordinator-local
runner, which fails when its function name is unregistered.  Returns the
failure (if any) together with the ordered list of observable events. -/
def deploy (registered : List String) (instances : List Nat) (coordId : Nat)
    (runners : List Runner) : Option DeployError × List DeployEvent :=
  if runners.length ≠ (runners.map Runner.id).dedup.length then
    (some DeployError.repeatedRunnerId, [])
  else
    match dispatchLoop instances coordId runners none [] with
    | (some e, _, evs) => (some e, evs)
    | (none, none, evs) => (none, evs)
    | (none, some (f, rid), evs) =>
      if f ∈ registered then (none, evs ++ [DeployEvent.runLocal f rid])
      else (some (DeployError.unknownFunction f), evs)

/-- C3 counterexample: the two runners share instance id 5 (with distinct
runner ids); the claim demands that `deploy` fail with DuplicateInstanceId
and dispatch nothing, but it succeeds and posts both dispatch RPCs. -/
theorem C3_counterexample_duplicate_instance_dispatched :
    deploy ["f", "g"] [5, 7] 7 [⟨0, "f", 5⟩, ⟨1, "g", 5⟩] =
      (none, [DeployEvent.rpc 5 "f" 0, DeployEvent.rpc 5 "g" 1]) := by
  decide

/-- C3 (amended): before dispatching, `deploy` validates only the uniqueness
of runner ids: when two runners share an id it fails with the repeated-id
logic error and no runner is dispatched.  (Duplicate instance ids and
unregistered function names are not validated before dispatch.) -/
theorem C3_duplicate_runner_id_no_dispatch (registered : List String)
    (instances : List Nat) (coordId : Nat) (runners : List Runner)
    (h : runners.length ≠ (runners.map Runner.id).dedup.length) :
    deploy registered instances coordId runners =
      (some DeployError.repeatedRunnerId, []) := by
  rw [deploy, if_pos h]

/-- Witness for the amended C3: two runners with the same id 0 make `deploy`
fail with the repeated-id error and dispatch nothing. -/
theorem C3_duplicate_runner_id_no_dispatch_witness :
    deploy ["f", "g"] [5, 6] 7 [⟨0, "f", 5⟩, ⟨0, "g", 6⟩] =
      (some DeployError.repeatedRunnerId, []) :=
  C3_duplicate_runner_id_no_dispatch ["f", "g"] [5, 6] 7
    [⟨0, "f", 5⟩, ⟨0, "g", 6⟩] (by decide)

/-- The dispatch loop over runners that are all remote posts one RPC per
runner, in runner order, keeping the remembered local runner. -/
theorem dispatchLoop_all_remote (instances : List Nat) (coordId : Nat)
    (rs : List Runner) (loc : Option (String × Nat)) (evs : List DeployEvent)
    (hin : ∀ r ∈ rs, r.instanceId ∈ instances)
    (hrem : ∀ r ∈ rs, r.instanceId ≠ coordId) :
    dispatchLoop instances coordId rs loc evs =
      (none, loc,
       evs ++ rs.map (fun r => DeployEvent.rpc r.instanceId r.function r.id)) := by
  induction rs generalizing evs with
  | nil => simp [dispatchLoop]
  | cons r rs ih =>
    rw [dispatchLoop, if_pos (hin r (List.mem_cons_self _ _)),
        if_neg (hrem r (List.mem_cons_self _ _)),
        ih (evs ++ [DeployEvent.rpc r.instanceId r.function r.id])
          (fun x hx => hin x (List.mem_cons_of_mem _ hx))
          (fun x hx => hrem x (List.mem_cons_of_mem _ hx))]
    simp

/-- With every instance id known and exactly one runner on the coordinator's
instance, the dispatch loop posts the remote RPCs in runner order and
remembers the local runner. -/
theorem dispatchLoop_one_local (instances : List Nat) (coordId : Nat)
    (pre post : List Runner) (r0 : Runner) (loc : Option (String × Nat))
    (evs : List DeployEvent)
    (hin : ∀ r ∈ pre ++ r0 :: post, r.instanceId ∈ instances)
    (hpre : ∀ r ∈ pre, r.instanceId ≠ coordId)
    (hpost : ∀ r ∈ post, r.instanceId ≠ coordId)
    (h0 : r0.instanceId = coordId) :
    dispatchLoop instances coordId (pre ++ r0 :: post) loc evs =
      (none, some (r0.function, r0.id),
       evs ++ (pre ++ post).map
         (fun r => DeployEvent.rpc r.instanceId r.function r.id)) := by
  induction pre generalizing evs with
  | nil =>
    simp only [List.nil_append]
    rw [dispatchLoop, if_pos (hin r0 (List.mem_cons_self _ _)), if_pos h0]
    exact dispatchLoop_all_remote instances coordId post _ evs
      (fun x hx => hin x (List.mem_cons_of_mem _ hx)) hpost
  | cons r pre ih =>
    rw [List.cons_append, dispatchLoop,
        if_pos (hin r (List.mem_cons_self _ _)),
        if_neg (hpre r (List.mem_cons_self _ _)),
        ih (evs ++ [DeployEvent.rpc r.instanceId r.function r.id])
          (fun x hx => hin x (List.mem_cons_of_mem _ hx))
          (fun x hx => hpre x (List.mem_cons_of_mem _ hx))]
    simp

/-- C6: when exactly one runner's instance id is the coordinator's own and
the deployment passes validation, `deploy` posts the dispatch RPC for every
runner assigned to a different instance, in runner order, and only then runs
the coordinator-local runner, exactly once, as the last event. -/
theorem C6_local_runner_after_all_remote (registered : List String)
    (instances : List Nat) (coordId : Nat) (pre post : List Runner) (r0 : Runner)
    (hids : (pre ++ r0 :: post).length =
      ((pre ++ r0 :: post).map Runner.id).dedup.length)
    (hin : ∀ r ∈ pre ++ r0 :: post, r.instanceId ∈ instances)
    (hpre : ∀ r ∈ pre, r.instanceId ≠ coordId)
    (hpost : ∀ r ∈ post, r.instanceId ≠ coordId)
    (h0 : r0.instanceId = coordId)
    (hreg : r0.function ∈ registered) :
    deploy registered instances coordId (pre ++ r0 :: post) =
      (none, (pre ++ post).map
          (fun r => DeployEvent.rpc r.instanceId r.function r.id)
        ++ [DeployEvent.runLocal r0.function r0.id]) := by
  rw [deploy, if_neg (not_ne_iff.mpr hids),
      dispatchLoop_one_local instances coordId pre post r0 none [] hin hpre hpost h0]
  simp [hreg]

/-- Witness for C6: a worker runner on instance 2 and the coordinator's own
runner on instance 1 — the remote RPC is posted first and the local entry
runs once, last. -/
theorem C6_local_runner_after_all_remote_witness :
    deploy ["c", "w"] [1, 2] 1 ([⟨0, "w", 2⟩] ++ ⟨1, "c", 1⟩ :: []) =
      (none, [DeployEvent.rpc 2 "w" 0, DeployEvent.runLocal "c" 1]) :=
  C6_local_runner_after_all_remote ["c", "w"] [1, 2] 1 [⟨0, "w", 2⟩] []
    ⟨1, "c", 1⟩ (by decide) (by decide) (by decide) (by decide) (by decide)
    (by decide)

/-! ## Root-instance lookup -/

/-- An instance as seen by the root lookups (deployr.hpp / engine.hpp): its
id and whether it reports being the root instance. -/
structure Inst where
  id : Nat
  isRootInstance : Bool
deriving DecidableEq, Repr

/-- The scanning loop of `getRootInstanceIndex`: the index (offset by `k`) of
the first instance reporting root, if any. -/
def rootIndexLoop : List Inst → Nat → Option Nat
  | [], _ => none
  | i :: rest, k => if i.isRootInstance then some k else rootIndexLoop rest (k + 1)

/-- Embedding of `DeployR::getRootInstanceIndex` (deployr.hpp, lines 536-542;
also engine.hpp, lines 186-192): the index of the first instance reporting
root; 0 when none does. -/
def getRootInstanceIndex (instances : List Inst) : Nat :=
  (rootIndexLoop instances 0).getD 0

/-- The scanning loop of `getRootInstance`: the first instance reporting
root, if any. -/
def findRoot : List Inst → Option Inst
  | [] => none
  | i :: rest => if i.isRootInstance then some i else findRoot rest

/-- Embedding of `Engine::getRootInstance` (engine.hpp, lines 173-179; the
same code in deployr.hpp, lines 549-555): the first instance reporting root;
otherwise `*(instances[0])`, which on an empty list reads out of bounds,
modelled as `none`. -/
def getRootInstance (instances : List Inst) : Option Inst :=
  match findRoot instances with
  | some i => some i
  | none => instances.head?

/-- C9 counterexample: on the empty (hence root-less) instance list,
`getRootInstance` cannot return "the first instance of the list" — its
fallback reads `instances[0]` out of bounds, modelled `none` — so the claim's
"these lookups never fail, for every (possibly root-less) instance list" is
false at the empty list. -/
theorem C9_counterexample_empty_list : getRootInstance [] = none := rfl

/-- The index scan finds nothing on a root-less list. -/
theorem rootIndexLoop_none (instances : List Inst)
    (h : ∀ i ∈ instances, i.isRootInstance = false) :
    ∀ k, rootIndexLoop instances k = none := by
  induction instances with
  | nil => intro k; rfl
  | cons i rest ih =>
    intro k
    rw [rootIndexLoop, if_neg]
    · exact ih (fun x hx => h x (List.mem_cons_of_mem _ hx)) (k + 1)
    · rw [h i (List.mem_cons_self _ _)]
      exact Bool.false_ne_true

/-- The instance scan finds nothing on a root-less list. -/
theorem findRoot_none (instances : List Inst)
    (h : ∀ i ∈ instances, i.isRootInstance = false) :
    findRoot instances = none := by
  induction instances with
  | nil => rfl
  | cons i rest ih =>
    rw [findRoot, if_neg]
    · exact ih fun x hx => h x (List.mem_cons_of_mem _ hx)
    · rw [h i (List.mem_cons_self _ _)]
      exact Bool.false_ne_true

/-- C9 (amended): on every root-less instance list `getRootInstanceIndex`
returns 0, and on every nonempty root-less list `getRootInstance` returns the
first instance without signalling an error; on the empty list
`getRootInstance`'s fallback reads `instances[0]` out of bounds. -/
theorem C9_rootless_defaults (instances : List Inst)
    (h : ∀ i ∈ instances, i.isRootInstance = false) :
    getRootInstanceIndex instances = 0 ∧
      getRootInstance instances = instances.head? := by
  refine ⟨?_, ?_⟩
  · rw [getRootInstanceIndex, rootIndexLoop_none instances h 0]
    rfl
  · rw [getRootInstance, findRoot_none instances h]

/-- Witness for the amended C9: a single non-root instance — index 0 and the
first instance are returned. -/
theorem C9_rootless_defaults_witness :
    getRootInstanceIndex [⟨3, false⟩] = 0 ∧
      getRootInstance [⟨3, false⟩] = [(⟨3, false⟩ : Inst)].head? :=
  C9_rootless_defaults [⟨3, false⟩] (by decide)

/-! ## Deployment serialization

`Deployment::serialize` and the deserializing constructor
(src/unnamed/part_002, lines 128-176) exchange a JSON object holding the
deployment start time, the originating request JSON (`Request::serialize`
returns it verbatim), the pairings map flattened in `std::map` (sorted key)
order, and the serialized host list (`Host::serialize` /
deserializing constructor, host.hpp, lines 143-167). -/

/-- Minimal model of the `nlohmann::json` values the serializer emits. -/
inductive JsonVal where
  | str (s : String)
  | num (n : Nat)
  | arr (elems : List JsonVal)
  | obj (fields : List (String × JsonVal))

/-- Lookup of a key in a JSON object's field list (first occurrence). -/
def getKey : List (String × JsonVal) → String → Option JsonVal
  | [], _ => none
  | (k, v) :: rest, key => if k == key then some v else getKey rest key

/-- Model of `hicr::json::getString`: the string under the key, failing on a
missing key or a non-string value. -/
def jsonGetString (js : JsonVal) (key : String) : Option String :=
  match js with
  | JsonVal.obj fields =>
    match getKey fields key with
    | some (JsonVal.str s) => some s
    | _ => none
  | _ => none

/-- Model of `hicr::json::getNumber`: the number under the key, failing on a
missing key or a non-numeric value. -/
def jsonGetNumber (js : JsonVal) (key : String) : Option Nat :=
  match js with
  | JsonVal.obj fields =>
    match getKey fields key with
    | some (JsonVal.num n) => some n
    | _ => none
  | _ => none

/-- Model of `hicr::json::getObject`: the object under the key, failing on a
missing key or a non-object value. -/
def jsonGetObject (js : JsonVal) (key : String) : Option JsonVal :=
  match js with
  | JsonVal.obj fields =>
    match getKey fields key with
    | some (JsonVal.obj inner) => some (JsonVal.obj inner)
    | _ => none
  | _ => none

/-- Model of `hicr::json::getArray`: the array under the key, failing on a
missing key or a non-array value. -/
def jsonGetArray (js : JsonVal) (key : String) : Option (List JsonVal) :=
  match js with
  | JsonVal.obj fields =>
    match getKey fields key with
    | some (JsonVal.arr elems) => some elems
    | _ => none
  | _ => none

/-- Whether a JSON value is an object. -/
def JsonVal.isObject : JsonVal → Bool
  | JsonVal.obj _ => true
  | _ => false

/-- A host of a deployment (host.hpp): its index within the instance list and
its topology JSON. -/
structure Host where
  hostIndex : Nat
  topology : JsonVal

/-- Embedding of `Host::serialize` (host.hpp, lines 143-155): the object with
the host index and the topology. -/
def Host.serialize (h : Host) : JsonVal :=
  JsonVal.obj [("Host Index", JsonVal.num h.hostIndex), ("Topology", h.topology)]

/-- Embedding of the deserializing `Host` constructor (host.hpp, lines
162-167): read back the host index and the topology object. -/
def Host.deserialize (js : JsonVal) : Option Host :=
  match jsonGetNumber js "Host Index", jsonGetObject js "Topology" with
  | some idx, some top => some ⟨idx, top⟩
  | _, _ => none

/-- One serialized pairing entry:
`{"Instance Name": name, "Assigned Host": index}`. -/
def pairingJson (p : String × Nat) : JsonVal :=
  JsonVal.obj [("Instance Name", JsonVal.str p.1), ("Assigned Host", JsonVal.num p.2)]

/-- Model of `std::map::operator[]` assignment on the pairings map,
represented as an association list strictly sorted by key. -/
def mapInsert : List (String × Nat) → String → Nat → List (String × Nat)
  | [], key, v => [(key, v)]
  | (k, w) :: rest, key, v =>
    if key < k then (key, v) :: (k, w) :: rest
    else if key = k then (key, v) :: rest
    else (k, w) :: mapInsert rest key v

/-- Parsing loop over the serialized pairings array: each entry's instance
name and assigned host are inserted into the map. -/
def parsePairings : List JsonVal → List (String × Nat) → Option (List (String × Nat))
  | [], m => some m
  | js :: rest, m =>
    match jsonGetString js "Instance Name", jsonGetNumber js "Assigned Host" with
    | some n, some a => parsePairings rest (mapInsert m n a)
    | _, _ => none

/-- Parsing loop over the serialized hosts array. -/
def parseHosts : List JsonVal → Option (List Host)
  | [] => some []
  | js :: rest =>
    match Host.deserialize js, parseHosts rest with
    | some h, some hs => some (h :: hs)
    | _, _ => none

/-- A deployment as serialized (src/unnamed/part_002): start time, the
originating request JSON, the instance-name → host-index pairings map (a
`std::map`: strictly sorted by key), and the host list. -/
structure Deployment where
  deployStartTime : String
  requestJs : JsonVal
  pairings : List (String × Nat)
  hosts : List Host

/-- Embedding of `Deployment::serialize` (src/unnamed/part_002, lines
128-152): the start time and request are always written; the `"Pairings"`
and `"Hosts"` keys are created by `operator[]` only when the respective loop
runs at least once. -/
def Deployment.serialize (d : Deployment) : JsonVal :=
  JsonVal.obj
    ([("Deployment Start Time", JsonVal.str d.deployStartTime),
      ("Request", d.requestJs)]
     ++ (if d.pairings.isEmpty then []
         else [("Pairings", JsonVal.arr (d.pairings.map pairingJson))])
     ++ (if d.hosts.isEmpty then []
         else [("Hosts", JsonVal.arr (d.hosts.map Host.serialize))]))

/-- Embedding of the deserializing `Deployment` constructor
(src/unnamed/part_002, lines 159-176): read the start time, the request
object, the pairings array (inserting each entry into the map), and the hosts
array. -/
def Deployment.deserialize (js : JsonVal) : Option Deployment :=
  match jsonGetString js "Deployment Start Time", jsonGetObject js "Request",
        jsonGetArray js "Pairings", jsonGetArray js "Hosts" with
  | some st, some rq, some ps, some hs =>
    match parsePairings ps [], parseHosts hs with
    | some pairings, some hosts => some ⟨st, rq, pairings, hosts⟩
    | _, _ => none
  | _, _, _, _ => none

/-- Round trip of one host through `Host::serialize` and the deserializing
constructor: index and topology are preserved. -/
theorem Host.deserialize_serialize (h : Host)
    (hobj : h.topology.isObject = true) :
    Host.deserialize (Host.serialize h) = some h := by
  obtain ⟨idx, top⟩ := h
  cases top with
  | obj fields => rfl
  | str s => exact Bool.noConfusion hobj
  | num n => exact Bool.noConfusion hobj
  | arr l => exact Bool.noConfusion hobj

/-- Inserting a key greater than every key of a sorted map appends it. -/
theorem mapInsert_append (acc : List (String × Nat)) (key : String) (v : Nat)
    (h : ∀ a ∈ acc, a.1 < key) :
    mapInsert acc key v = acc ++ [(key, v)] := by
  induction acc with
  | nil => rfl
  | cons a rest ih =>
    have hlt : a.1 < key := h a (List.mem_cons_self _ _)
    obtain ⟨k, w⟩ := a
    rw [mapInsert, if_neg (lt_asymm hlt), if_neg (ne_of_gt hlt),
        ih fun x hx => h x (List.mem_cons_of_mem _ hx)]
    rfl

/-- Parsing the serialized pairings of a strictly sorted map rebuilds the
map: each entry is appended since its key exceeds all earlier keys. -/
theorem parsePairings_sorted (l acc : List (String × Nat))
    (h : (acc ++ l).Pairwise (fun a b => a.1 < b.1)) :
    parsePairings (l.map pairingJson) acc = some (acc ++ l) := by
  induction l generalizing acc with
  | nil => rw [List.map_nil, parsePairings, List.append_nil]
  | cons p rest ih =>
    rw [List.map_cons, parsePairings]
    have h1 : jsonGetString (pairingJson p) "Instance Name" = some p.1 := rfl
    have h2 : jsonGetNumber (pairingJson p) "Assigned Host" = some p.2 := rfl
    rw [h1, h2]
    show parsePairings (List.map pairingJson rest) (mapInsert acc p.1 p.2) =
      some (acc ++ p :: rest)
    have hcross : ∀ a ∈ acc, a.1 < p.1 := fun a ha =>
      (List.pairwise_append.mp h).2.2 a ha p (List.mem_cons_self _ _)
    rw [mapInsert_append acc p.1 p.2 hcross]
    have heq : (acc ++ [(p.1, p.2)]) ++ rest = acc ++ p :: rest := by
      simp [List.append_assoc]
    rw [ih (acc ++ [(p.1, p.2)]) (by rw [heq]; exact h), heq]

/-- Parsing the serialized host list rebuilds the host list. -/
theorem parseHosts_map (hosts : List Host)
    (hobj : ∀ h ∈ hosts, h.topology.isObject = true) :
    parseHosts (hosts.map Host.serialize) = some hosts := by
  induction hosts with
  | nil => rfl
  | cons h rest ih =>
    rw [List.map_cons, parseHosts,
        Host.deserialize_serialize h (hobj h (List.mem_cons_self _ _)),
        ih fun x hx => hobj x (List.mem_cons_of_mem _ hx)]

/-- C10: constructing a `Deployment` from `d.serialize()` gives back the same
deployment start time, the same request JSON, the same
instance-name → host-index pairings map, and the same host list, each host
preserving its index and topology through its own serialize/deserialize
pair.  The request JSON and host topologies are objects (as produced by
`Request::serialize` and `HiCR`), the pairings come from a `std::map` (keys
strictly sorted), and the pairings and hosts are nonempty (the `"Pairings"`
and `"Hosts"` keys exist only when the serializing loops ran). -/
theorem C10_deployment_serialize_roundtrip (d : Deployment)
    (hreq : d.requestJs.isObject = true)
    (hps : d.pairings ≠ [])
    (hhs : d.hosts ≠ [])
    (hsorted : d.pairings.Pairwise fun a b => a.1 < b.1)
    (hobj : ∀ h ∈ d.hosts, h.topology.isObject = true) :
    Deployment.deserialize (Deployment.serialize d) = some d := by
  obtain ⟨st, rq, ps, hs⟩ := d
  cases rq with
  | str s => exact Bool.noConfusion hreq
  | num n => exact Bool.noConfusion hreq
  | arr l => exact Bool.noConfusion hreq
  | obj rqf =>
    cases ps with
    | nil => exact absurd rfl hps
    | cons p ps' =>
      cases hs with
      | nil => exact absurd rfl hhs
      | cons h0 hs' =>
        have a1 : jsonGetString
            (Deployment.serialize ⟨st, JsonVal.obj rqf, p :: ps', h0 :: hs'⟩)
            "Deployment Start Time" = some st := rfl
        have a2 : jsonGetObject
            (Deployment.serialize ⟨st, JsonVal.obj rqf, p :: ps', h0 :: hs'⟩)
            "Request" = some (JsonVal.obj rqf) := rfl
        have a3 : jsonGetArray
            (Deployment.serialize ⟨st, JsonVal.obj rqf, p :: ps', h0 :: hs'⟩)
            "Pairings" = some ((p :: ps').map pairingJson) := rfl
        have a4 : jsonGetArray
            (Deployment.serialize ⟨st, JsonVal.obj rqf, p :: ps', h0 :: hs'⟩)
            "Hosts" = some ((h0 :: hs').map Host.serialize) := rfl
        rw [Deployment.deserialize, a1, a2, a3, a4]
        show (match parsePairings ((p :: ps').map pairingJson) [],
                parseHosts ((h0 :: hs').map Host.serialize) with
              | some pairings, some hosts =>
                some (⟨st, JsonVal.obj rqf, pairings, hosts⟩ : Deployment)
              | _, _ => none) =
            some ⟨st, JsonVal.obj rqf, p :: ps', h0 :: hs'⟩
        rw [parsePairings_sorted (p :: ps') [] hsorted, parseHosts_map _ hobj]
        rfl

/-- Witness for C10: a concrete deployment with one pairing and one host
round-trips unchanged. -/
theorem C10_deployment_serialize_roundtrip_witness :
    Deployment.deserialize (Deployment.serialize
        ⟨"t", JsonVal.obj [], [("a", 2)], [⟨0, JsonVal.obj []⟩]⟩) =
      some ⟨"t", JsonVal.obj [], [("a", 2)], [⟨0, JsonVal.obj []⟩]⟩ :=
  C10_deployment_serialize_roundtrip ⟨"t", JsonVal.obj [], [("a", 2)], [⟨0, JsonVal.obj []⟩]⟩
    rfl (by simp) (by simp) (List.pairwise_singleton _ _)
    (by intro x hx; rw [List.mem_singleton] at hx; subst hx; rfl)

end DeployR
